import Mathlib

/-!
# Verification of the Basic-Zether client (`src/client/Client.ts`)

This file shallowly embeds the client-side engine of the Basic-Zether
repository and proves/refutes the frozen claims about it.

Modelling conventions:
* The BabyJubJub subgroup (implemented in `src/client/ultis.ts`, which is not
  present under `src/`) is modelled from the spec as the additive cyclic group
  of integers modulo a group order `q`, with generator `G = 1`; a curve point
  is represented by its discrete logarithm, a `Nat` below `q`.
* JavaScript `bigint` values are embedded as `Int`; chain-reported unsigned
  quantities (`epochLength`, block number, `counter`, `MAX`) as `Nat`.
* JavaScript `number` arithmetic (IEEE-754 binary64) on integer values is
  embedded by `float64RoundInt`, the correct round-to-nearest, ties-to-even
  rounding of an exact integer to the binary64-representable integers
  (overflow to infinity is not modelled; every value arising in this
  development is far below the binary64 overflow threshold).
* JavaScript strings are embedded as `List Char`.
* Each client operation is embedded as a pure function from the client state,
  a snapshot of the ledger-reported values, and the operation arguments
  (including the caller-supplied randomness) to a result together with the
  ordered trace of the events the operation performs.
-/

set_option autoImplicit false

/-! ## The cyclic-group model of the curve -/

/-- Modelled from the spec: scalar multiplication `s · P` on the BabyJubJub
group (the implementing `ultis` module is not in `src/`); in the
discrete-logarithm model a point is a `Nat` and multiplication acts modulo
the group order `q`. -/
def mulP (q s p : Nat) : Nat := (s * p) % q

/-- Modelled from the spec: point addition on the group, modulo `q`. -/
def addP (q a b : Nat) : Nat := (a + b) % q

/-- Modelled from the spec: point subtraction `a − b` on the group, modulo
`q`. -/
def subP (q a b : Nat) : Nat := (a + (q - b % q)) % q

/-- Modelled from the spec: the group generator `G` (discrete logarithm 1). -/
def pG (q : Nat) : Nat := 1 % q

/-- Modelled from the spec: a point obtained from a (possibly negative)
integer exponent, reduced modulo `q`. -/
def ptOfInt (q : Nat) (x : Int) : Nat := (x % (q : Int)).toNat

/-! ## Balance decoding (`readBalanceWithOnchainData`) -/

/-- Modelled from the spec: `readBalanceWithOnchainData` (in the missing
`ultis` module) computes `B = CL − sk·CR` and performs the bounded
discrete-logarithm search for the unique `m ∈ [0, MAX]` with `m·G = B`,
returning `undefined` (here `none`) when no match exists.  The search bound
`MAX` is the client-configured ceiling. -/
def readBalanceWithOnchainData (q CL CR sk MAX : Nat) : Option Nat :=
  (List.range (MAX + 1)).find? fun m => mulP q m (pG q) == subP q CL (mulP q sk CR)

/-- JavaScript falsiness of the decoded balance: the guard
`if (!cur_b)` in `Client.burn`/`Client.transfer` treats both `undefined`
and `0` as falsy. -/
def jsFalsy : Option Nat → Bool
  | none => true
  | some n => n == 0

/-! ## IEEE-754 binary64 arithmetic on integers -/

/-- Round the natural number `n` to the nearest multiple of `2 ^ e`, ties to
even (the IEEE-754 default rounding applied to an exact integer). -/
def roundTiesEven (n e : Nat) : Nat :=
  let p := 2 ^ e
  let quo := n / p
  let rem := n % p
  if rem * 2 < p then quo * p
  else if rem * 2 > p then (quo + 1) * p
  else if quo % 2 = 0 then quo * p else (quo + 1) * p

/-- Fuel-driven floor base-2 logarithm (structurally recursive so that the
kernel can evaluate it). -/
def log2Fuel : Nat → Nat → Nat
  | 0, _ => 0
  | fuel + 1, n => if n ≤ 1 then 0 else log2Fuel fuel (n / 2) + 1

/-- Floor base-2 logarithm of a natural number. -/
def floorLog2 (n : Nat) : Nat := log2Fuel n n

/-- Round a natural number to the nearest binary64-representable integer:
integers up to `2 ^ 53` are exact; above, the unit in the last place is
`2 ^ (log2 n − 52)`. -/
def float64RoundNat (m : Nat) : Nat :=
  if m ≤ 2 ^ 53 then m else roundTiesEven m (floorLog2 m - 52)

/-- Round an integer to the nearest binary64-representable integer
(round-to-nearest, ties to even); this is the value a JavaScript `number`
holds for an exact integer result. -/
def float64RoundInt (n : Int) : Int :=
  if 0 ≤ n then ((float64RoundNat n.toNat : Nat) : Int)
  else -((float64RoundNat (-n).toNat : Nat) : Int)

/-- JavaScript `number` subtraction of two exactly-held integers: the IEEE
operation returns the correct rounding of the exact difference.  This embeds
the expression `cur_b - Number(amount)` of `Client.transfer` (line 146). -/
def jsSub (a b : Int) : Int := float64RoundInt (a - b)

/-! ## `toUnitsByDecimals` (Client.ts lines 32–45) -/

/-- The input to `toUnitsByDecimals`: a JavaScript string, number, or bigint.
A `number` is carried by its decimal `toString()` rendering, which is all the
source inspects of it. -/
inductive AmountInput where
  | str (s : List Char)
  | num (s : List Char)
  | big (n : Int)
deriving DecidableEq

/-- Embedding of JavaScript `String.prototype.split` with a one-character
separator: splits the character list at every occurrence of `c`. -/
def splitOnChar (c : Char) : List Char → List (List Char)
  | [] => [[]]
  | x :: xs =>
    match splitOnChar c xs with
    | [] => [[]]
    | h :: t => if x = c then [] :: h :: t else (x :: h) :: t

/-- Decimal digit test (codepoints 48–57), as used by `BigInt(string)`. -/
def isDecDigit (c : Char) : Bool := 48 ≤ c.toNat && c.toNat ≤ 57

/-- Numeric value of a decimal digit string (leading zeros allowed). -/
def decDigitsVal (l : List Char) : Nat :=
  l.foldl (fun a c => 10 * a + (c.toNat - 48)) 0

/-- Embedding of JavaScript `BigInt(string)` on the strings this client
produces: an optional leading minus sign followed by decimal digits; the
empty string parses to `0`; anything else throws (`none`). -/
def parseBigIntChars (l : List Char) : Option Int :=
  match l with
  | [] => some 0
  | c :: rest =>
    if c = '-' then
      if !rest.isEmpty && rest.all isDecDigit then
        some (-(decDigitsVal rest : Int))
      else none
    else
      if (c :: rest).all isDecDigit then some ((decDigitsVal (c :: rest) : Nat) : Int)
      else none

/-- The string branch of `toUnitsByDecimals`: split at the decimal point,
right-pad/truncate the fractional part to exactly `decimals` digits, strip
leading zeros, and parse with `BigInt` (`none` embeds a `BigInt` throw). -/
def toUnitsStr (s : List Char) (decimals : Nat) : Option Int :=
  let parts := splitOnChar '.' s
  let intPart := parts.headD []
  let fracPartRaw := (parts.drop 1).headD []
  let fracPart := (fracPartRaw ++ List.replicate decimals '0').take decimals
  let normalized := (intPart ++ fracPart).dropWhile (fun c => c == '0')
  parseBigIntChars (if normalized.isEmpty then ['0'] else normalized)

/-- Embedding of `toUnitsByDecimals` (Client.ts lines 32–45): a bigint is
returned unchanged, a number is rendered to a string and re-dispatched, and a
string goes through the decimal-point parsing path. -/
def toUnitsByDecimals : AmountInput → Nat → Option Int
  | .big n, _ => some n
  | .num s, d => toUnitsStr s d
  | .str s, d => toUnitsStr s d

/-! ## Client and ledger state -/

/-- The client-held account state: the `Client` class fields (`account`
holding the keypair, and the configured `MAX` search ceiling). -/
structure ClientAcc where
  privateKey : Nat
  publicKey : Nat
  MAX : Nat
deriving DecidableEq

/-- A snapshot of everything the ledger (and block provider) reports to one
operation: the values returned by `epochLength()`, `getBlockNumber()`,
`simulateAccounts` (the pair `sCL, sCR`), `counter(...)`, `MAX()`, plus, for
each write entry point, whether the chain reverts it and with which reason. -/
structure LedgerView where
  grpOrder : Nat
  epochLength : Nat
  blockNumber : Nat
  sCL : Nat
  sCR : Nat
  counter : Nat
  maxOnChain : Nat
  burnRevert : Option String
  transferRevert : Option String
  lockRevert : Option String
deriving DecidableEq

/-- The observable events an operation performs, in order: network reads,
the local balance decode, local witness construction, and network writes. -/
inductive Event where
  | readEpochLength
  | readBlockNumber
  | simulateAccounts (epoch : Nat)
  | readCounter
  | readMAX
  | decodeBalance (result : Option Nat)
  | buildBurnWitness
  | buildTransferWitness
  | writeBurn (amount : Int)
  | writeTransfer (amount : Int)
  | writeLock (lockAddress c s : Nat)
deriving DecidableEq

/-- Network calls are the ledger/provider reads and the transaction writes;
the balance decode and the witness builders are local computation. -/
def isNetworkCall : Event → Bool
  | .decodeBalance _ => false
  | .buildBurnWitness => false
  | .buildTransferWitness => false
  | _ => true

/-- State-mutating ledger writes. -/
def isWrite : Event → Bool
  | .writeBurn _ => true
  | .writeTransfer _ => true
  | .writeLock _ _ _ => true
  | _ => false

/-- The balance-decode event. -/
def isDecodeEvent : Event → Bool
  | .decodeBalance _ => true
  | _ => false

/-- Witness-construction events. -/
def isBuildEvent : Event → Bool
  | .buildBurnWitness => true
  | .buildTransferWitness => true
  | _ => false

/-- The errors an operation can raise: the two local construction errors
(the `"Current balance is undefined"` throw and the spec's `InvalidAmount`),
and a ledger revert carrying its reason string. -/
inductive ClientError where
  | balanceUndefined
  | invalidAmount
  | chainRejected (reason : String)
deriving DecidableEq

/-- Local construction errors, as opposed to ledger reverts. -/
def isLocalConstructionError : ClientError → Bool
  | .balanceUndefined => true
  | .invalidAmount => true
  | .chainRejected _ => false

/-! ## Witness builders -/

/-- The burn witness: private `sk`, `cur_b`; public sender key, `CL`, `CR`,
amount `b`, `counter` (spec §3, and the `generateBurnProof` input record). -/
structure BurnWitness where
  sk : Nat
  cur_b : Nat
  y : Nat
  CL : Nat
  CR : Nat
  b : Int
  counter : Nat
deriving DecidableEq

/-- The transfer witness: private `sk`, `r`, `sAmount`, `bRem`; public `MAX`,
`C_send`, `C_receive`, `D`, both keys, `CL`, `CR`, `counter` (spec §3, and
the `generateTransferProof` input record). -/
structure TransferWitness where
  sk : Nat
  r : Nat
  sAmount : Int
  bRem : Int
  MAXpub : Nat
  CS : Nat
  CRe : Nat
  D : Nat
  y : Nat
  yR : Nat
  CL : Nat
  CR : Nat
  counter : Nat
deriving DecidableEq

/-- Modelled from the spec: `buildBurnWitness` (§4.4, realized by
`generateBurnProof` in the missing `ultis` module) fails with
`InvalidAmount` if `amount < 0`, `amount > MAX`, or
`amount > currentBalance`, and otherwise assembles the burn witness. -/
def buildBurnWitness (y CL CR sk : Nat) (amount : Int)
    (currentBalance counter MAX : Nat) : Except ClientError BurnWitness :=
  if amount < 0 ∨ (MAX : Int) < amount ∨ (currentBalance : Int) < amount then
    .error .invalidAmount
  else
    .ok { sk := sk, cur_b := currentBalance, y := y, CL := CL, CR := CR,
          b := amount, counter := counter }

/-- Modelled from the spec: `createTransferInput` (§4.4, missing `ultis`
module) re-encrypts the sender's delta by `−amount`, the receiver's by
`+amount`, both under the shared blinding scalar `r`, with the decoy
`D = r·G`. -/
def createTransferInput (q y yR : Nat) (amount : Int) (r : Nat) :
    Nat × Nat × Nat :=
  (ptOfInt q (-amount + (r * y : Nat)),
   ptOfInt q (amount + (r * yR : Nat)),
   mulP q r (pG q))

/-- Modelled from the spec: `buildTransferWitness` (§4.4, realized by
`generateTransferProof` in the missing `ultis` module) fails with
`InvalidAmount` under the same bound checks, and otherwise assembles the
transfer witness from the values the caller computed. -/
def buildTransferWitness (y yR CL CR sk r : Nat) (amount bRem : Int)
    (currentBalance counter MAX : Nat) (csd : Nat × Nat × Nat) :
    Except ClientError TransferWitness :=
  if amount < 0 ∨ (MAX : Int) < amount ∨ (currentBalance : Int) < amount then
    .error .invalidAmount
  else
    .ok { sk := sk, r := r, sAmount := amount, bRem := bRem, MAXpub := MAX,
          CS := csd.1, CRe := csd.2.1, D := csd.2.2, y := y, yR := yR,
          CL := CL, CR := CR, counter := counter }

/-! ## The client operations (Client.ts) -/

/-- `Client.stimulateAccount` (lines 183–199): read `epochLength` and the
block number, compute `epoch = blockNumber / epochLength` (bigint division,
i.e. floor), and ask the ledger to simulate the account at that epoch. -/
def stimulateAccount (st : LedgerView) : (Nat × Nat) × List Event :=
  let epoch := st.blockNumber / st.epochLength
  ((st.sCL, st.sCR),
   [.readEpochLength, .readBlockNumber, .simulateAccounts epoch])

/-- `Client.burn` (lines 81–117): simulate the account, decode the current
balance, read the counter, throw `"Current balance is undefined"` on a falsy
balance, build the burn witness (spec-modelled `InvalidAmount` checks), and
submit `write.burn`. -/
def burn (client : ClientAcc) (st : LedgerView) (amount : Int) :
    Except ClientError BurnWitness × List Event :=
  let sim := stimulateAccount st
  let accountData := sim.1
  let cur_b := readBalanceWithOnchainData st.grpOrder accountData.1
    accountData.2 client.privateKey client.MAX
  let ev1 := sim.2 ++ [.decodeBalance cur_b, .readCounter]
  if jsFalsy cur_b then (.error .balanceUndefined, ev1)
  else
    match buildBurnWitness client.publicKey accountData.1 accountData.2
        client.privateKey amount (cur_b.getD 0) st.counter client.MAX with
    | .error e => (.error e, ev1 ++ [.buildBurnWitness])
    | .ok w =>
      let ev2 := ev1 ++ [.buildBurnWitness, .writeBurn amount]
      match st.burnRevert with
      | some reason => (.error (.chainRejected reason), ev2)
      | none => (.ok w, ev2)

/-- `Client.transfer` (lines 119–181): simulate the account, decode the
current balance, read the counter and the on-chain `MAX`, throw on a falsy
balance, derive the transfer ciphertexts, compute
`remainAmount = cur_b − Number(amount)` in JavaScript `number` (binary64)
arithmetic, build the transfer witness (spec-modelled `InvalidAmount`
checks), and submit `write.transfer`. -/
def transfer (client : ClientAcc) (st : LedgerView) (amount : Int)
    (receiverKey r : Nat) : Except ClientError TransferWitness × List Event :=
  let sim := stimulateAccount st
  let accountData := sim.1
  let cur_b := readBalanceWithOnchainData st.grpOrder accountData.1
    accountData.2 client.privateKey client.MAX
  let ev1 := sim.2 ++ [.decodeBalance cur_b, .readCounter, .readMAX]
  if jsFalsy cur_b then (.error .balanceUndefined, ev1)
  else
    let b := cur_b.getD 0
    let csd := createTransferInput st.grpOrder client.publicKey receiverKey
      amount r
    let remainAmount := jsSub (b : Int) (float64RoundInt amount)
    match buildTransferWitness client.publicKey receiverKey accountData.1
        accountData.2 client.privateKey r amount remainAmount b st.counter
        st.maxOnChain csd with
    | .error e => (.error e, ev1 ++ [.buildTransferWitness])
    | .ok w =>
      let ev2 := ev1 ++ [.buildTransferWitness, .writeTransfer amount]
      match st.transferRevert with
      | some reason => (.error (.chainRejected reason), ev2)
      | none => (.ok w, ev2)

/-- `Client.getCurrentBalance` (lines 205–212): simulate the account and
return the decode result directly — `undefined` (`none`) is returned, never
thrown. -/
def getCurrentBalance (client : ClientAcc) (st : LedgerView) :
    Except ClientError (Option Nat) × List Event :=
  let sim := stimulateAccount st
  let b := readBalanceWithOnchainData st.grpOrder sim.1.1 sim.1.2
    client.privateKey client.MAX
  (.ok b, sim.2 ++ [.decodeBalance b])

/-- Modelled from the spec: address checksum normalization (`getAddress`)
is the identity on the numeric 160-bit address value. -/
def getAddressN (a : Nat) : Nat := a

/-- Modelled from the spec: `schnorrChallenge` (§4.5, missing `ultis`
module) draws a nonce `k`, computes `c = H(contractAddress, lockAddress,
publicKey, k·G)` and `s = k − c·privateKey (mod ord)`; the hash `H` is left
abstract as a function parameter. -/
def schnorrChallenge (H : Nat → Nat → Nat → Nat → Nat) (ord q : Nat)
    (contractAddress lockAddress y sk k : Nat) : Nat × Nat :=
  let c := H contractAddress lockAddress y (mulP q k (pG q))
  let s := (((k : Int) - (c : Int) * (sk : Int)) % (ord : Int)).toNat
  (c, s)

/-- `Client.lock` (lines 214–237): normalize the contract and lock
addresses, compute the Schnorr pair over `(contractAddress, lockAddress,
publicKey)` with the account's private key, and submit it with the lock
transaction. -/
def lock (H : Nat → Nat → Nat → Nat → Nat) (ord : Nat) (client : ClientAcc)
    (st : LedgerView) (contractAddress lockAddress k : Nat) :
    Except ClientError (Nat × Nat) × List Event :=
  let la := getAddressN lockAddress
  let ca := getAddressN contractAddress
  let cs := schnorrChallenge H ord st.grpOrder ca la client.publicKey
    client.privateKey k
  let ev := [Event.writeLock la cs.1 cs.2]
  match st.lockRevert with
  | some reason => (.error (.chainRejected reason), ev)
  | none => (.ok cs, ev)

/-! ## Shared lemmas -/

/-- A successfully decoded balance lies within the search bound. -/
theorem readBalance_le_MAX {q CL CR sk MAX b : Nat}
    (h : readBalanceWithOnchainData q CL CR sk MAX = some b) : b ≤ MAX := by
  have hmem := List.mem_of_find?_eq_some h
  have hlt := List.mem_range.mp hmem
  omega

/-! ## Claims -/

/-- C10: `getCurrentBalance` never throws on a failed balance decode: its
result is always `ok` of whatever `readBalanceWithOnchainData` returned, so
an undecodable ciphertext yields `ok none` rather than an error. -/
theorem getCurrentBalance_never_throws (client : ClientAcc) (st : LedgerView) :
    (getCurrentBalance client st).1 =
      Except.ok (readBalanceWithOnchainData st.grpOrder st.sCL st.sCR
        client.privateKey client.MAX) := rfl

/-- C4: for every block height and positive epoch length, the epoch the
client passes to `simulateAccounts` satisfies the floor characterization
`ep · epochLength ≤ blockHeight < (ep + 1) · epochLength`, i.e. it equals
`floor(blockHeight / epochLength)`. -/
theorem stimulateAccount_epoch_floor (st : LedgerView)
    (h : 0 < st.epochLength) :
    ∃ ep, Event.simulateAccounts ep ∈ (stimulateAccount st).2 ∧
      ep * st.epochLength ≤ st.blockNumber ∧
      st.blockNumber < (ep + 1) * st.epochLength := by
  refine ⟨st.blockNumber / st.epochLength, ?_, ?_, ?_⟩
  · simp [stimulateAccount]
  · exact Nat.div_mul_le_self _ _
  · exact (Nat.div_lt_iff_lt_mul h).mp (Nat.lt_succ_self _)

/-- C4 witness: at block height 7 with epoch length 2 the epoch passed to
the simulation is the floor 3. -/
theorem stimulateAccount_epoch_floor_witness :
    ∃ ep, Event.simulateAccounts ep ∈
      (stimulateAccount ⟨11, 2, 7, 4, 0, 0, 5, none, none, none⟩).2 ∧
      ep * 2 ≤ 7 ∧ 7 < (ep + 1) * 2 :=
  stimulateAccount_epoch_floor ⟨11, 2, 7, 4, 0, 0, 5, none, none, none⟩
    (by decide)

/-- C3: when the bounded decode finds no integer in `[0, MAX]`, both `burn`
and `transfer` fail with the fatal `"Current balance is undefined"` error,
perform the decode exactly once, and neither build a witness nor issue any
write. -/
theorem undecodable_balance_fatal (client : ClientAcc) (st : LedgerView)
    (amount : Int) (receiverKey r : Nat)
    (h : readBalanceWithOnchainData st.grpOrder st.sCL st.sCR
      client.privateKey client.MAX = none) :
    (burn client st amount).1 = .error .balanceUndefined ∧
    (burn client st amount).2.countP (fun e => isDecodeEvent e) = 1 ∧
    (∀ e ∈ (burn client st amount).2,
      isBuildEvent e = false ∧ isWrite e = false) ∧
    (transfer client st amount receiverKey r).1 = .error .balanceUndefined ∧
    (transfer client st amount receiverKey r).2.countP
      (fun e => isDecodeEvent e) = 1 ∧
    (∀ e ∈ (transfer client st amount receiverKey r).2,
      isBuildEvent e = false ∧ isWrite e = false) := by
  have hb : burn client st amount = (.error .balanceUndefined,
      [.readEpochLength, .readBlockNumber,
       .simulateAccounts (st.blockNumber / st.epochLength),
       .decodeBalance none, .readCounter]) := by
    simp [burn, stimulateAccount, h, jsFalsy]
  have ht : transfer client st amount receiverKey r =
      (.error .balanceUndefined,
      [.readEpochLength, .readBlockNumber,
       .simulateAccounts (st.blockNumber / st.epochLength),
       .decodeBalance none, .readCounter, .readMAX]) := by
    simp [transfer, stimulateAccount, h, jsFalsy]
  rw [hb, ht]
  refine ⟨rfl, by simp [List.countP_cons, isDecodeEvent], ?_, rfl,
    by simp [List.countP_cons, isDecodeEvent], ?_⟩ <;>
    simp [List.forall_mem_cons, isBuildEvent, isWrite]

deriving instance DecidableEq for Except

/-- C3 witness: a ledger state whose ciphertext decodes to nothing in
`[0, 3]` makes `burn` fail with the fatal balance error. -/
theorem undecodable_balance_fatal_witness :
    (burn ⟨0, 3, 3⟩ ⟨11, 2, 7, 5, 0, 0, 5, none, none, none⟩ 1).1 =
      .error .balanceUndefined :=
  (undecodable_balance_fatal ⟨0, 3, 3⟩ ⟨11, 2, 7, 5, 0, 0, 5, none, none, none⟩
    1 2 1 (by decide)).1

/-- C8: when the decode succeeds with the value exactly 0, the JavaScript
falsy guard `if (!cur_b)` makes both `burn` and `transfer` throw
`"Current balance is undefined"` for every amount, building no witness and
issuing no write. -/
theorem zero_balance_rejected (client : ClientAcc) (st : LedgerView)
    (amount : Int) (receiverKey r : Nat)
    (h : readBalanceWithOnchainData st.grpOrder st.sCL st.sCR
      client.privateKey client.MAX = some 0) :
    (burn client st amount).1 = .error .balanceUndefined ∧
    (∀ e ∈ (burn client st amount).2,
      isBuildEvent e = false ∧ isWrite e = false) ∧
    (transfer client st amount receiverKey r).1 = .error .balanceUndefined ∧
    (∀ e ∈ (transfer client st amount receiverKey r).2,
      isBuildEvent e = false ∧ isWrite e = false) := by
  have hb : burn client st amount = (.error .balanceUndefined,
      [.readEpochLength, .readBlockNumber,
       .simulateAccounts (st.blockNumber / st.epochLength),
       .decodeBalance (some 0), .readCounter]) := by
    simp [burn, stimulateAccount, h, jsFalsy]
  have ht : transfer client st amount receiverKey r =
      (.error .balanceUndefined,
      [.readEpochLength, .readBlockNumber,
       .simulateAccounts (st.blockNumber / st.epochLength),
       .decodeBalance (some 0), .readCounter, .readMAX]) := by
    simp [transfer, stimulateAccount, h, jsFalsy]
  rw [hb, ht]
  refine ⟨rfl, ?_, rfl, ?_⟩ <;>
    simp [List.forall_mem_cons, isBuildEvent, isWrite]

/-- C8 witness: a concrete account whose ciphertext decodes to exactly 0 is
rejected by `burn` with the balance-undefined error for amount 1. -/
theorem zero_balance_rejected_witness :
    (burn ⟨0, 3, 5⟩ ⟨11, 2, 7, 0, 0, 0, 5, none, none, none⟩ 1).1 =
      .error .balanceUndefined :=
  (zero_balance_rejected ⟨0, 3, 5⟩ ⟨11, 2, 7, 0, 0, 0, 5, none, none, none⟩
    1 2 1 (by decide)).1

/-- In `burn`, a local construction error means no write event was issued. -/
theorem burn_local_error_no_write (client : ClientAcc) (st : LedgerView)
    (amount : Int) (e : ClientError)
    (hres : (burn client st amount).1 = .error e)
    (hloc : isLocalConstructionError e = true) :
    ∀ ev ∈ (burn client st amount).2, isWrite ev = false := by
  by_cases hf : jsFalsy (readBalanceWithOnchainData st.grpOrder st.sCL st.sCR
      client.privateKey client.MAX) = true
  · simp [burn, stimulateAccount, hf, List.forall_mem_cons, isWrite]
  · rcases hbw : buildBurnWitness client.publicKey st.sCL st.sCR
        client.privateKey amount
        ((readBalanceWithOnchainData st.grpOrder st.sCL st.sCR
          client.privateKey client.MAX).getD 0) st.counter client.MAX with
      e2 | w
    · simp [burn, stimulateAccount, hf, hbw, List.forall_mem_cons, isWrite]
    · rcases hrev : st.burnRevert with _ | reason
      · exfalso
        simp [burn, stimulateAccount, hf, hbw, hrev] at hres
      · exfalso
        simp [burn, stimulateAccount, hf, hbw, hrev] at hres
        rw [← hres] at hloc
        simp [isLocalConstructionError] at hloc

/-- In `transfer`, a local construction error means no write event was
issued. -/
theorem transfer_local_error_no_write (client : ClientAcc) (st : LedgerView)
    (amount : Int) (receiverKey r : Nat) (e : ClientError)
    (hres : (transfer client st amount receiverKey r).1 = .error e)
    (hloc : isLocalConstructionError e = true) :
    ∀ ev ∈ (transfer client st amount receiverKey r).2, isWrite ev = false := by
  by_cases hf : jsFalsy (readBalanceWithOnchainData st.grpOrder st.sCL st.sCR
      client.privateKey client.MAX) = true
  · simp [transfer, stimulateAccount, hf, List.forall_mem_cons, isWrite]
  · rcases hbw : buildTransferWitness client.publicKey receiverKey st.sCL
        st.sCR client.privateKey r amount
        (jsSub (((readBalanceWithOnchainData st.grpOrder st.sCL st.sCR
          client.privateKey client.MAX).getD 0 : Nat) : Int)
          (float64RoundInt amount))
        ((readBalanceWithOnchainData st.grpOrder st.sCL st.sCR
          client.privateKey client.MAX).getD 0) st.counter st.maxOnChain
        (createTransferInput st.grpOrder client.publicKey receiverKey
          amount r) with e2 | w
    · simp [transfer, stimulateAccount, hf, hbw, List.forall_mem_cons,
        isWrite]
    · rcases hrev : st.transferRevert with _ | reason
      · exfalso
        simp [transfer, stimulateAccount, hf, hbw, hrev] at hres
      · exfalso
        simp [transfer, stimulateAccount, hf, hbw, hrev] at hres
        rw [← hres] at hloc
        simp [isLocalConstructionError] at hloc

/-- C5: whenever `burn` or `transfer` ends in a local construction error
(the balance-undefined throw or the `InvalidAmount` failure), no
state-mutating write event has been issued, so the ledger is unchanged. -/
theorem local_failure_before_write (client : ClientAcc) (st : LedgerView)
    (amount : Int) (receiverKey r : Nat) (e e2 : ClientError) :
    ((burn client st amount).1 = .error e →
      isLocalConstructionError e = true →
      ∀ ev ∈ (burn client st amount).2, isWrite ev = false) ∧
    ((transfer client st amount receiverKey r).1 = .error e2 →
      isLocalConstructionError e2 = true →
      ∀ ev ∈ (transfer client st amount receiverKey r).2,
        isWrite ev = false) :=
  ⟨fun h1 h2 => burn_local_error_no_write client st amount e h1 h2,
   fun h1 h2 =>
     transfer_local_error_no_write client st amount receiverKey r e2 h1 h2⟩

/-- C5 witness: a concrete burn of the out-of-bound amount 6 fails locally
with `InvalidAmount` and its trace contains no write event. -/
theorem local_failure_before_write_witness :
    ∀ ev ∈ (burn ⟨0, 3, 5⟩ ⟨11, 2, 7, 4, 0, 0, 5, none, none, none⟩ 6).2,
      isWrite ev = false :=
  (local_failure_before_write ⟨0, 3, 5⟩
      ⟨11, 2, 7, 4, 0, 0, 5, none, none, none⟩ 6 2 1 .invalidAmount
      .invalidAmount).1 (by decide) (by decide)

/-- C1 counterexample: the claim fails on the code in two concrete ways.
With balance 4 decoded from the chain and the out-of-bound amount 6, `burn`
does fail with `InvalidAmount`, but network calls (the epoch-length read,
among others) have already been made before the failure, refuting
"this failure occurs before any network call is made".  And with a decoded
balance of exactly 0 and amount 1 (which exceeds the balance), the failure
is the balance-undefined throw, not `InvalidAmount`. -/
theorem invalid_amount_counterexample :
    (burn ⟨0, 3, 5⟩ ⟨11, 2, 7, 4, 0, 0, 5, none, none, none⟩ 6).1 =
      .error .invalidAmount ∧
    Event.readEpochLength ∈
      (burn ⟨0, 3, 5⟩ ⟨11, 2, 7, 4, 0, 0, 5, none, none, none⟩ 6).2 ∧
    isNetworkCall .readEpochLength = true ∧
    (burn ⟨0, 3, 5⟩ ⟨11, 2, 7, 0, 0, 0, 5, none, none, none⟩ 1).1 ≠
      .error .invalidAmount ∧
    (burn ⟨0, 3, 5⟩ ⟨11, 2, 7, 0, 0, 0, 5, none, none, none⟩ 1).1 =
      .error .balanceUndefined := by decide

/-- C1 (amended): for a decoded, nonzero current balance, the witness
builders of `burn` and `transfer` fail with `InvalidAmount` whenever the
amount is negative, exceeds the respective `MAX`, or exceeds the current
balance, and the failure occurs after the ledger reads but before any
state-mutating write is issued. -/
theorem invalid_amount_fails_before_write (client : ClientAcc)
    (st : LedgerView) (amount : Int) (b receiverKey r : Nat)
    (hdec : readBalanceWithOnchainData st.grpOrder st.sCL st.sCR
      client.privateKey client.MAX = some b)
    (hb0 : b ≠ 0) :
    ((amount < 0 ∨ (client.MAX : Int) < amount ∨ (b : Int) < amount) →
      (burn client st amount).1 = .error .invalidAmount ∧
      ∀ ev ∈ (burn client st amount).2, isWrite ev = false) ∧
    ((amount < 0 ∨ (st.maxOnChain : Int) < amount ∨ (b : Int) < amount) →
      (transfer client st amount receiverKey r).1 = .error .invalidAmount ∧
      ∀ ev ∈ (transfer client st amount receiverKey r).2,
        isWrite ev = false) := by
  have hff : jsFalsy (some b) = false := by simp [jsFalsy, hb0]
  constructor
  · intro hcond
    have hbw : buildBurnWitness client.publicKey st.sCL st.sCR
        client.privateKey amount b st.counter client.MAX =
        .error .invalidAmount := by
      unfold buildBurnWitness
      rw [if_pos hcond]
    constructor
    · simp [burn, stimulateAccount, hdec, hff, hbw]
    · simp [burn, stimulateAccount, hdec, hff, hbw, List.forall_mem_cons,
        isWrite]
  · intro hcond
    have hbw : buildTransferWitness client.publicKey receiverKey st.sCL
        st.sCR client.privateKey r amount
        (jsSub ((b : Nat) : Int) (float64RoundInt amount)) b st.counter
        st.maxOnChain
        (createTransferInput st.grpOrder client.publicKey receiverKey
          amount r) = .error .invalidAmount := by
      unfold buildTransferWitness
      rw [if_pos hcond]
    constructor
    · simp [transfer, stimulateAccount, hdec, hff, hbw]
    · simp [transfer, stimulateAccount, hdec, hff, hbw,
        List.forall_mem_cons, isWrite]

/-- C1 witness: with decoded balance 4 and amount 6 exceeding `MAX = 5`,
`burn` fails with `InvalidAmount` and issues no write. -/
theorem invalid_amount_fails_before_write_witness :
    (burn ⟨0, 3, 5⟩ ⟨11, 2, 7, 4, 0, 0, 5, none, none, none⟩ 6).1 =
      .error .invalidAmount ∧
    ∀ ev ∈ (burn ⟨0, 3, 5⟩ ⟨11, 2, 7, 4, 0, 0, 5, none, none, none⟩ 6).2,
      isWrite ev = false :=
  (invalid_amount_fails_before_write ⟨0, 3, 5⟩
      ⟨11, 2, 7, 4, 0, 0, 5, none, none, none⟩ 6 4 2 1 (by decide)
      (by decide)).1 (by decide)

/-- Rounding to binary64 is the identity on naturals up to `2 ^ 53`. -/
theorem float64RoundNat_small {m : Nat} (h : m ≤ 2 ^ 53) :
    float64RoundNat m = m := by
  unfold float64RoundNat
  rw [if_pos h]

/-- Rounding to binary64 is the identity on integers of magnitude at most
`2 ^ 53`. -/
theorem float64RoundInt_exact {n : Int} (h1 : -(2 ^ 53) ≤ n)
    (h2 : n ≤ 2 ^ 53) : float64RoundInt n = n := by
  unfold float64RoundInt
  split
  · next h0 =>
    have ht : n.toNat ≤ 2 ^ 53 := by omega
    rw [float64RoundNat_small ht]
    omega
  · next h0 =>
    have ht : (-n).toNat ≤ 2 ^ 53 := by omega
    rw [float64RoundNat_small ht]
    omega

/-- C2 counterexample: the subtraction the transfer builder performs at
`remainAmount = cur_b - Number(amount)` is JavaScript `number` (binary64)
arithmetic, not exact arbitrary-precision integer arithmetic: as a function
it already differs from exact integer subtraction at `2 ^ 53 + 1`. -/
theorem jsSub_is_floating_point :
    jsSub (2 ^ 53 + 1) 0 ≠ (2 ^ 53 + 1 : Int) - 0 := by decide

/-- C2 (amended): `remainingBalance` is computed by binary64 subtraction
`cur_b - Number(amount)`, but for every decoded balance and amount in range
(both bounded by a `MAX` of at most `2 ^ 53`) the binary64 result is exact:
the witness field `bRem` equals `currentBalance − amount` with no rounding
and no wraparound. -/
theorem transfer_remaining_balance_exact (client : ClientAcc)
    (st : LedgerView) (amount : Int) (receiverKey r b : Nat)
    (w : TransferWitness)
    (hmax : client.MAX ≤ 2 ^ 53) (hmax2 : st.maxOnChain ≤ 2 ^ 53)
    (hdec : readBalanceWithOnchainData st.grpOrder st.sCL st.sCR
      client.privateKey client.MAX = some b)
    (hok : (transfer client st amount receiverKey r).1 = .ok w) :
    w.bRem = (b : Int) - amount := by
  have hble : b ≤ client.MAX := readBalance_le_MAX hdec
  by_cases hb0 : b = 0
  · exfalso
    subst hb0
    simp [transfer, stimulateAccount, hdec, jsFalsy] at hok
  · have hff : jsFalsy (some b) = false := by simp [jsFalsy, hb0]
    by_cases hc : amount < 0 ∨ (st.maxOnChain : Int) < amount ∨
        (b : Int) < amount
    · exfalso
      have hbw : buildTransferWitness client.publicKey receiverKey st.sCL
          st.sCR client.privateKey r amount
          (jsSub ((b : Nat) : Int) (float64RoundInt amount)) b st.counter
          st.maxOnChain
          (createTransferInput st.grpOrder client.publicKey receiverKey
            amount r) = .error .invalidAmount := by
        unfold buildTransferWitness
        rw [if_pos hc]
      simp [transfer, stimulateAccount, hdec, hff, hbw] at hok
    · push_neg at hc
      obtain ⟨ha0, hamax, hab⟩ := hc
      have hfl : float64RoundInt amount = amount :=
        float64RoundInt_exact (by omega) (by omega)
      have hjs : jsSub ((b : Nat) : Int) amount = (b : Int) - amount := by
        unfold jsSub
        exact float64RoundInt_exact (by omega) (by omega)
      have hbw : buildTransferWitness client.publicKey receiverKey st.sCL
          st.sCR client.privateKey r amount
          (jsSub ((b : Nat) : Int) (float64RoundInt amount)) b st.counter
          st.maxOnChain
          (createTransferInput st.grpOrder client.publicKey receiverKey
            amount r) =
          .ok { sk := client.privateKey, r := r, sAmount := amount,
                bRem := (b : Int) - amount, MAXpub := st.maxOnChain,
                CS := (createTransferInput st.grpOrder client.publicKey
                  receiverKey amount r).1,
                CRe := (createTransferInput st.grpOrder client.publicKey
                  receiverKey amount r).2.1,
                D := (createTransferInput st.grpOrder client.publicKey
                  receiverKey amount r).2.2,
                y := client.publicKey, yR := receiverKey, CL := st.sCL,
                CR := st.sCR, counter := st.counter } := by
        rw [hfl, hjs]
        unfold buildTransferWitness
        rw [if_neg (by push_neg; exact ⟨ha0, hamax, hab⟩)]
      rcases hrev : st.transferRevert with _ | reason
      · simp [transfer, stimulateAccount, hdec, hff, hbw, hrev] at hok
        rw [← hok]
      · exfalso
        simp [transfer, stimulateAccount, hdec, hff, hbw, hrev] at hok

/-- C2 witness: a concrete in-range transfer (balance 4, amount 2) succeeds
and its witness carries the exact remaining balance 2. -/
theorem transfer_remaining_balance_exact_witness :
    ((transfer ⟨0, 3, 5⟩ ⟨11, 2, 7, 4, 0, 0, 5, none, none, none⟩ 2 2 1).1 =
      .ok { sk := 0, r := 1, sAmount := 2, bRem := 2, MAXpub := 5, CS := 1,
            CRe := 4, D := 1, y := 3, yR := 2, CL := 4, CR := 0,
            counter := 0 }) ∧
    ({ sk := 0, r := 1, sAmount := 2, bRem := 2, MAXpub := 5, CS := 1,
       CRe := 4, D := 1, y := 3, yR := 2, CL := 4, CR := 0,
       counter := 0 } : TransferWitness).bRem = ((4 : Nat) : Int) - 2 :=
  ⟨by decide,
   transfer_remaining_balance_exact ⟨0, 3, 5⟩
     ⟨11, 2, 7, 4, 0, 0, 5, none, none, none⟩ 2 2 1 4 _ (by decide)
     (by decide) (by decide) (by decide)⟩

/-- C6: for every contract address and lock address, `lock` computes the
Schnorr pair from exactly the normalized `(contractAddress, lockAddress,
publicKey)` triple together with the account's private key and the nonce
`k`, with `c = H(contractAddress, lockAddress, publicKey, k·G)` and
`s ≡ k − c·privateKey (mod ord)`, and its single write event submits
exactly that pair with the lock transaction. -/
theorem lock_submits_schnorr_pair (H : Nat → Nat → Nat → Nat → Nat)
    (ord : Nat) (client : ClientAcc) (st : LedgerView)
    (contractAddress lockAddress k : Nat) (h : 0 < ord) :
    (lock H ord client st contractAddress lockAddress k).2 =
      [Event.writeLock (getAddressN lockAddress)
        (schnorrChallenge H ord st.grpOrder (getAddressN contractAddress)
          (getAddressN lockAddress) client.publicKey client.privateKey k).1
        (schnorrChallenge H ord st.grpOrder (getAddressN contractAddress)
          (getAddressN lockAddress) client.publicKey client.privateKey
          k).2] ∧
    (schnorrChallenge H ord st.grpOrder (getAddressN contractAddress)
        (getAddressN lockAddress) client.publicKey client.privateKey k).1 =
      H (getAddressN contractAddress) (getAddressN lockAddress)
        client.publicKey (mulP st.grpOrder k (pG st.grpOrder)) ∧
    ((schnorrChallenge H ord st.grpOrder (getAddressN contractAddress)
        (getAddressN lockAddress) client.publicKey client.privateKey
        k).2 : Int) =
      ((k : Int) -
        (H (getAddressN contractAddress) (getAddressN lockAddress)
          client.publicKey (mulP st.grpOrder k (pG st.grpOrder)) : Int) *
        (client.privateKey : Int)) % (ord : Int) := by
  refine ⟨?_, rfl, ?_⟩
  · rcases hrev : st.lockRevert with _ | reason <;> simp [lock, hrev]
  · have hord : (ord : Int) ≠ 0 := by
      simp only [ne_eq, Int.natCast_eq_zero]
      omega
    exact Int.toNat_of_nonneg (Int.emod_nonneg _ hord)

/-- C6 witness: concrete evaluation of the lock submission for a fixed hash
function, group order 7, and modulus 11. -/
theorem lock_submits_schnorr_pair_witness :
    (lock (fun a b y g => a + b + y + g) 7 ⟨3, 5, 5⟩
        ⟨11, 2, 7, 4, 0, 0, 5, none, none, none⟩ 9 6 2).2 =
      [Event.writeLock (getAddressN 6)
        (schnorrChallenge (fun a b y g => a + b + y + g) 7 11
          (getAddressN 9) (getAddressN 6) 5 3 2).1
        (schnorrChallenge (fun a b y g => a + b + y + g) 7 11
          (getAddressN 9) (getAddressN 6) 5 3 2).2] :=
  (lock_submits_schnorr_pair (fun a b y g => a + b + y + g) 7 ⟨3, 5, 5⟩
    ⟨11, 2, 7, 4, 0, 0, 5, none, none, none⟩ 9 6 2 (by decide)).1

/-- Folding digits from accumulator `n` shifts `n` by `10 ^ length`. -/
theorem decDigitsVal_foldl (l : List Char) (n : Nat) :
    l.foldl (fun a c => 10 * a + (c.toNat - 48)) n =
      n * 10 ^ l.length + decDigitsVal l := by
  induction l generalizing n with
  | nil => simp [decDigitsVal]
  | cons c t ih =>
    simp only [List.foldl_cons, decDigitsVal, List.length_cons]
    rw [ih, ih (10 * 0 + (c.toNat - 48))]
    ring

/-- The decimal value of a concatenation. -/
theorem decDigitsVal_append (a b : List Char) :
    decDigitsVal (a ++ b) =
      decDigitsVal a * 10 ^ b.length + decDigitsVal b := by
  unfold decDigitsVal
  rw [List.foldl_append]
  exact decDigitsVal_foldl b _

/-- A leading zero does not change the decimal value. -/
theorem decDigitsVal_zero_cons (l : List Char) :
    decDigitsVal ('0' :: l) = decDigitsVal l := rfl

/-- Stripping the leading run of zeros preserves the decimal value. -/
theorem decDigitsVal_dropWhile_zero (l : List Char) :
    decDigitsVal (l.dropWhile (fun c => c == '0')) = decDigitsVal l := by
  induction l with
  | nil => rfl
  | cons c t ih =>
    rw [List.dropWhile_cons]
    by_cases hc : c = '0'
    · subst hc
      simp only [beq_self_eq_true, if_true]
      rw [ih, decDigitsVal_zero_cons]
    · simp [hc]

/-- `BigInt` parsing of an all-digit string yields its decimal value. -/
theorem parseBigIntChars_digits {l : List Char}
    (h : l.all isDecDigit = true) :
    parseBigIntChars l = some ((decDigitsVal l : Nat) : Int) := by
  cases l with
  | nil => rfl
  | cons c rest =>
    have hc : isDecDigit c = true := by
      have := List.all_eq_true.mp h c (List.mem_cons_self c rest)
      exact this
    have hne : ¬ c = '-' := by
      intro he
      subst he
      simp [isDecDigit] at hc
    simp only [parseBigIntChars]
    rw [if_neg hne, if_pos h]

/-- `dropWhile` preserves the all-digits property. -/
theorem all_isDecDigit_dropWhile {l : List Char}
    (h : l.all isDecDigit = true) :
    (l.dropWhile (fun c => c == '0')).all isDecDigit = true := by
  rw [List.all_eq_true] at h ⊢
  intro x hx
  exact h x ((List.dropWhile_sublist (l := l)
    (p := fun c => c == '0')).subset hx)

/-- The core of the string path: stripping leading zeros and parsing an
all-digit string returns its decimal value (with the empty-string guard). -/
theorem parse_strip (L : List Char) (hall : L.all isDecDigit = true) :
    parseBigIntChars
        (if (L.dropWhile (fun c => c == '0')).isEmpty then ['0']
         else L.dropWhile (fun c => c == '0')) =
      some ((decDigitsVal L : Nat) : Int) := by
  by_cases he : (L.dropWhile (fun c => c == '0')).isEmpty = true
  · rw [if_pos he]
    have h0 : decDigitsVal L = 0 := by
      rw [← decDigitsVal_dropWhile_zero L, List.isEmpty_iff.mp he]
      rfl
    rw [h0]
    rfl
  · rw [if_neg he, parseBigIntChars_digits (all_isDecDigit_dropWhile hall),
      decDigitsVal_dropWhile_zero]

/-- `splitOnChar` never returns the empty list of pieces. -/
theorem splitOnChar_ne_nil (c : Char) (l : List Char) :
    splitOnChar c l ≠ [] := by
  cases l with
  | nil => simp [splitOnChar]
  | cons x xs =>
    unfold splitOnChar
    cases hs : splitOnChar c xs with
    | nil => simp
    | cons h t => by_cases hx : x = c <;> simp [hx]

/-- A list without the separator splits into a single piece. -/
theorem splitOnChar_no_sep {c : Char} {l : List Char}
    (h : ∀ x ∈ l, ¬ x = c) : splitOnChar c l = [l] := by
  induction l with
  | nil => rfl
  | cons x xs ih =>
    have hx : ¬ x = c := h x (List.mem_cons_self x xs)
    have hxs := ih fun y hy => h y (List.mem_cons_of_mem _ hy)
    simp only [splitOnChar, hxs]
    rw [if_neg hx]

/-- Splitting at the first (only) separator in the middle. -/
theorem splitOnChar_append_sep {c : Char} {I F : List Char}
    (h : ∀ x ∈ I, ¬ x = c) :
    splitOnChar c (I ++ c :: F) = I :: splitOnChar c F := by
  induction I with
  | nil =>
    obtain ⟨h0, t0, hs⟩ := List.exists_cons_of_ne_nil (splitOnChar_ne_nil c F)
    simp [splitOnChar, hs]
  | cons x xs ih =>
    have hx : ¬ x = c := h x (List.mem_cons_self x xs)
    have hxs := ih fun y hy => h y (List.mem_cons_of_mem _ hy)
    simp only [List.cons_append, splitOnChar, List.append_eq, hxs]
    rw [if_neg hx]

/-- A digit is not a decimal point. -/
theorem isDecDigit_ne_dot {x : Char} (h : isDecDigit x = true) :
    ¬ x = '.' := by
  intro he
  subst he
  simp [isDecDigit] at h

/-- A digit is not a zero-run terminator issue: digits are preserved by
`take` and `++` with zero padding. -/
theorem all_isDecDigit_pad {F : List Char} (d : Nat)
    (hF : F.all isDecDigit = true) :
    ((F ++ List.replicate d '0').take d).all isDecDigit = true := by
  rw [List.all_eq_true]
  intro x hx
  have hx2 : x ∈ F ++ List.replicate d '0' := List.take_subset d _ hx
  rw [List.mem_append] at hx2
  rcases hx2 with h1 | h1
  · exact List.all_eq_true.mp hF x h1
  · rw [List.eq_of_mem_replicate h1]
    rfl

/-- The padded/truncated fractional part has exactly `d` digits. -/
theorem pad_length (F : List Char) (d : Nat) :
    ((F ++ List.replicate d '0').take d).length = d := by
  rw [List.length_take, List.length_append, List.length_replicate]
  omega

/-- A run of zeros has decimal value 0. -/
theorem decDigitsVal_replicate_zero (d : Nat) :
    decDigitsVal (List.replicate d '0') = 0 := by
  induction d with
  | zero => rfl
  | succ n ih => rw [List.replicate_succ, decDigitsVal_zero_cons, ih]

/-- The string path of `toUnitsByDecimals` on a digits-dot-digits input:
the result is the integer part shifted by `10 ^ decimals` plus the decimal
value of the fractional part padded or truncated to `decimals` digits. -/
theorem toUnitsStr_int_frac (I F : List Char) (d : Nat)
    (hI : I.all isDecDigit = true) (hF : F.all isDecDigit = true) :
    toUnitsStr (I ++ '.' :: F) d =
      some ((decDigitsVal I : Int) * 10 ^ d +
        (decDigitsVal ((F ++ List.replicate d '0').take d) : Int)) := by
  have hIdot : ∀ x ∈ I, ¬ x = '.' := fun x hx =>
    isDecDigit_ne_dot (List.all_eq_true.mp hI x hx)
  have hFdot : ∀ x ∈ F, ¬ x = '.' := fun x hx =>
    isDecDigit_ne_dot (List.all_eq_true.mp hF x hx)
  have hsplit : splitOnChar '.' (I ++ '.' :: F) = [I, F] := by
    rw [splitOnChar_append_sep hIdot, splitOnChar_no_sep hFdot]
  have hall : (I ++ (F ++ List.replicate d '0').take d).all isDecDigit
      = true := by
    rw [List.all_append, hI, all_isDecDigit_pad d hF]
    rfl
  simp only [toUnitsStr, hsplit, List.headD_cons, List.drop_succ_cons,
    List.drop_zero]
  rw [parse_strip _ hall, decDigitsVal_append, pad_length]
  push_cast
  ring_nf

/-- The string path of `toUnitsByDecimals` on an all-digit input: the value
is scaled by `10 ^ decimals`. -/
theorem toUnitsStr_int_only (I : List Char) (d : Nat)
    (hI : I.all isDecDigit = true) :
    toUnitsStr I d = some ((decDigitsVal I : Int) * 10 ^ d) := by
  have hIdot : ∀ x ∈ I, ¬ x = '.' := fun x hx =>
    isDecDigit_ne_dot (List.all_eq_true.mp hI x hx)
  have hsplit : splitOnChar '.' I = [I] := splitOnChar_no_sep hIdot
  have hrep : (List.replicate d '0').all isDecDigit = true := by
    rw [List.all_eq_true]
    intro x hx
    rw [List.eq_of_mem_replicate hx]
    rfl
  have hall : (I ++ (List.replicate d '0').take d).all isDecDigit
      = true := by
    rw [List.all_append, hI, List.take_replicate]
    simp only [Bool.true_and]
    rw [List.all_eq_true]
    intro x hx
    rw [List.eq_of_mem_replicate hx]
    rfl
  simp only [toUnitsStr, hsplit, List.headD_cons, List.drop_succ_cons,
    List.drop_zero, List.headD_nil, List.nil_append]
  rw [parse_strip _ hall, decDigitsVal_append, List.take_replicate,
    Nat.min_self, decDigitsVal_replicate_zero, List.length_replicate]
  push_cast
  ring_nf

/-- C9: a bigint input is returned unchanged by `toUnitsByDecimals` for
every decimals value, whereas a non-negative decimal string input yields the
integer part shifted by `10 ^ decimals` plus the fractional part padded or
truncated (not rounded) to exactly `decimals` digits; in particular an
all-digit string of value `a` maps to `a · 10 ^ decimals` while the bigint
`a` maps to `a`. -/
theorem toUnitsByDecimals_semantics :
    (∀ (n : Int) (d : Nat), toUnitsByDecimals (.big n) d = some n) ∧
    (∀ (I F : List Char) (d : Nat), I.all isDecDigit = true →
      F.all isDecDigit = true →
      toUnitsByDecimals (.str (I ++ '.' :: F)) d =
        some ((decDigitsVal I : Int) * 10 ^ d +
          (decDigitsVal ((F ++ List.replicate d '0').take d) : Int))) ∧
    (∀ (I : List Char) (d : Nat), I.all isDecDigit = true →
      toUnitsByDecimals (.str I) d =
        some ((decDigitsVal I : Int) * 10 ^ d)) :=
  ⟨fun _ _ => rfl,
   fun I F d hI hF => toUnitsStr_int_frac I F d hI hF,
   fun I d hI => toUnitsStr_int_only I d hI⟩

/-- C9 witness: `"12.345"` at 2 decimals evaluates to `12·100 + 34 = 1234`
(truncated, not rounded), and the bigint 1234 is returned unchanged. -/
theorem toUnitsByDecimals_semantics_witness :
    toUnitsByDecimals (.str (['1', '2'] ++ '.' :: ['3', '4', '5'])) 2 =
      some ((decDigitsVal ['1', '2'] : Int) * 10 ^ 2 +
        (decDigitsVal (((['3', '4', '5'] : List Char) ++
          List.replicate 2 '0').take 2) : Int)) :=
  toUnitsByDecimals_semantics.2.1 ['1', '2'] ['3', '4', '5'] 2 (by decide)
    (by decide)

/-- C7 counterexample: the out-of-bound amount −1 (string "-1", 4 decimals)
is accepted by the edge conversion with no error and no bound check,
returning the negative value −10000. -/
theorem toUnits_no_bound_check_counterexample :
    toUnitsByDecimals (.str ['-', '1']) 4 = some (-10000) ∧
      ((-10000 : Int) < 0) := by decide

/-- C7 (amended): every amount accepted at the API edge — string, number,
or bigint — collapses to a single arbitrary-precision integer, but no
`0 ≤ amount ≤ MAX` bound check is performed at that edge: a bigint passes
through unchanged whatever its value. -/
theorem amount_edge_collapses_unchecked :
    (∀ (n : Int) (d : Nat), toUnitsByDecimals (.big n) d = some n) ∧
    (∀ (s : List Char) (d : Nat),
      toUnitsByDecimals (.num s) d = toUnitsByDecimals (.str s) d) ∧
    (∀ (I : List Char) (d : Nat), I.all isDecDigit = true →
      toUnitsByDecimals (.str I) d =
        some ((decDigitsVal I : Int) * 10 ^ d)) :=
  ⟨fun _ _ => rfl, fun _ _ => rfl, fun I d hI => toUnitsStr_int_only I d hI⟩

/-- C7 witness: the digit string "7" at 2 decimals collapses to 700, and
the (out-of-range) bigint −5 passes through unchecked. -/
theorem amount_edge_collapses_unchecked_witness :
    toUnitsByDecimals (.str ['7']) 2 =
      some ((decDigitsVal ['7'] : Int) * 10 ^ 2) ∧
    toUnitsByDecimals (.big (-5)) 2 = some (-5) :=
  ⟨amount_edge_collapses_unchecked.2.2 ['7'] 2 (by decide),
   amount_edge_collapses_unchecked.1 (-5) 2⟩
